import Mathlib

/-!
# Verification of `analyze_gl.py`

Shallow embedding of the general-ledger analysis script `src/analyze_gl.py`
(pandas pipeline: load, clean, aggregate, Benford first-digit analysis,
report).  Numeric cells are modelled as rationals; `pd.to_numeric(...,
errors='coerce')` is modelled by `Option ℚ` (`none` = the cell is not a
valid number, i.e. `NaN` after coercion), dates analogously, and string
cells by `Option String` (`none` = missing/NaN).
-/

namespace AnalyzeGL

/-- A raw spreadsheet row as loaded by `pd.read_excel` (line 13).
Each numeric cell is `some q` when the cell holds a valid number `q` and
`none` when `pd.to_numeric(..., errors='coerce')` would turn it into `NaN`
(bad string, empty, missing).  Date cells are `some day` when
`pd.to_datetime(..., errors='coerce')` parses them (as an ordinal day) and
`none` when they become `NaT`.  String cells are `none` when missing. -/
structure RawRow where
  debit : Option ℚ
  credit : Option ℚ
  amount : Option ℚ
  effectiveDate : Option ℤ
  entryDate : Option ℤ
  accountType : Option String
  source : Option String

/-- The loaded table: its column names (a spreadsheet may lack expected
columns) and its rows. -/
structure RawTable where
  columns : List String
  rows : List RawRow

/-- A cleaned row after lines 20-24 and 33-34: `Debit`, `Credit`, `Amount`
are plain numbers, dates and categorical cells stay nullable. -/
structure Row where
  debit : ℚ
  credit : ℚ
  amount : ℚ
  effectiveDate : Option ℤ
  entryDate : Option ℤ
  accountType : Option String
  source : Option String
deriving DecidableEq

/-- Lines 20-24: `pd.to_numeric(col, errors='coerce').fillna(0)` — a cell
that is not a valid number becomes `0`; lines 33-34 keep dates nullable;
the remaining cells are untouched. -/
def cleanRow (r : RawRow) : Row :=
  { debit := r.debit.getD 0
    credit := r.credit.getD 0
    amount := r.amount.getD 0
    effectiveDate := r.effectiveDate
    entryDate := r.entryDate
    accountType := r.accountType
    source := r.source }

/-- The cleaned table: the script mutates columns of `df` in place, so the
column set and the row order/count are unchanged. -/
structure CleanTable where
  columns : List String
  rows : List Row

/-- Cleaning step applied to the whole table (lines 20-24, 33-34). -/
def cleanTable (t : RawTable) : CleanTable :=
  { columns := t.columns, rows := t.rows.map cleanRow }

/-! ## Aggregator (lines 29, 42-49) -/

/-- Line 29: `row_count = len(df)`. -/
def row_count (rows : List Row) : ℕ := rows.length

/-- Line 42: `total_debit = df['Debit'].sum()`. -/
def total_debit (rows : List Row) : ℚ := (rows.map (·.debit)).sum

/-- Line 43: `total_credit = df['Credit'].sum()`. -/
def total_credit (rows : List Row) : ℚ := (rows.map (·.credit)).sum

/-- Line 46: `amount_sum = df['Amount'].sum()`. -/
def amount_sum (rows : List Row) : ℚ := (rows.map (·.amount)).sum

/-! ## `value_counts` (lines 52-53)

`Series.value_counts()` drops null entries, counts each distinct value,
and returns the pairs sorted by descending count; the underlying hash
table iterates in order of first appearance and the sort is stable, so
ties keep first-seen order. -/

/-- The distinct values of a list in order of first appearance.
(`List.dedup` keeps the last occurrence of each duplicate, so deduplicating
the reversed list and reversing back keeps the first occurrences, in their
original order.) -/
def firstSeenKeys (l : List String) : List String :=
  l.reverse.dedup.reverse

/-- The (value, occurrence count) pairs of a column, keys in first-seen
order — the iteration order of the counting hash table. -/
def countPairs (l : List String) : List (String × ℕ) :=
  (firstSeenKeys l).map (fun k => (k, l.count k))

/-- Comparison used by `value_counts`: descending occurrence count. -/
def countGE (a b : String × ℕ) : Prop := b.2 ≤ a.2

instance : DecidableRel countGE := fun a b => Nat.decLe b.2 a.2

instance : IsTotal (String × ℕ) countGE := ⟨fun a b => le_total b.2 a.2⟩

instance : IsTrans (String × ℕ) countGE := ⟨fun _ _ _ h h2 => le_trans h2 h⟩

/-- `Series.value_counts()` on a fully non-null column: count in
first-seen order, then stable-sort by descending count. -/
def value_counts (l : List String) : List (String × ℕ) :=
  List.insertionSort countGE (countPairs l)

/-- `Series.value_counts()` on a nullable column: null entries are dropped
(`dropna=True`, the default) before counting. -/
def value_countsOpt (l : List (Option String)) : List (String × ℕ) :=
  value_counts (l.filterMap id)

/-- Line 52: `account_type_counts = df['AccountType'].value_counts()`. -/
def account_type_counts (rows : List Row) : List (String × ℕ) :=
  value_countsOpt (rows.map (·.accountType))

/-- Line 53: `source_counts = df['Source'].value_counts()`. -/
def source_counts (rows : List Row) : List (String × ℕ) :=
  value_countsOpt (rows.map (·.source))

/-- Sum of the counts of a frequency table. -/
def sumCounts {α : Type} (vc : List (α × ℕ)) : ℕ := (vc.map (·.2)).sum

/-! ## Benford analyzer (lines 58-84)

Line 58 renders each non-zero absolute amount with Python `str()`.  For a
positive float `x`, `str x` is the shortest-round-trip decimal: fixed
notation `0.…` when `1e-4 ≤ x < 1` (first character `'0'`), fixed
notation starting with the leading significant digit when `1 ≤ x < 1e16`,
and scientific notation `d.…e±EE` — whose first character is the leading
significant digit `d` — when `x < 1e-4` or `x ≥ 1e16`.  So the first
character of `str x` is `'0'` exactly when `1e-4 ≤ x < 1`, and otherwise
the leading significant digit of `x`.  We model the amounts as exact
rationals and the first character by `firstStrDigit` below. -/

/-- Most significant decimal digit of `n` (fuel-driven so that it reduces
in the kernel; `n` itself is always enough fuel). -/
def leadDigitAux : ℕ → ℕ → ℕ
  | 0, n => n % 10
  | fuel + 1, n => if n < 10 then n else leadDigitAux fuel (n / 10)

/-- Most significant decimal digit of a natural number. -/
def leadDigitNat (n : ℕ) : ℕ := leadDigitAux n n

/-- First non-zero digit of the decimal expansion of `num / den` for
`0 < num / den < 1`: scale the numerator by 10 until the fraction reaches
1, then take the integer part (fuel-driven; `den` steps always suffice
since `10 ^ den > den`). -/
def fracDigitAux : ℕ → ℕ → ℕ → ℕ
  | 0, num, den => num / den
  | fuel + 1, num, den => if den ≤ num then num / den else fracDigitAux fuel (num * 10) den

/-- Leading significant digit of a positive rational: for `q ≥ 1` the
first digit of the integer part, for `q < 1` the first non-zero digit of
the decimal expansion. -/
def leadingDigit (q : ℚ) : ℕ :=
  if 1 ≤ q then leadDigitNat (⌊q⌋.toNat) else fracDigitAux q.den q.num.toNat q.den

/-- The first character of Python `str q` for a positive (absolute) value
`q`, read as a digit value (`'0'` ↦ 0): `'0'` exactly in the fixed-notation
pure-fraction range `1e-4 ≤ q < 1`, and the leading significant digit
otherwise (including the scientific-notation range `q < 1e-4`). -/
def firstStrDigit (q : ℚ) : ℕ :=
  if mkRat 1 10000 ≤ q ∧ q < 1 then 0 else leadingDigit q

/-- Lines 58-64: keep rows with `Amount ≠ 0`, take the first character of
`str(abs(Amount))` as an integer, and keep only the values in `1..9`
(`isin(range(1, 10))`). -/
def benfordDigits (rows : List Row) : List ℕ :=
  (((rows.filter (fun r => decide (r.amount ≠ 0))).map
      (fun r => firstStrDigit |r.amount|)).filter
    (fun d => decide (1 ≤ d ∧ d ≤ 9)))

/-- Line 68: `total_count = len(first_digits)`. -/
def total_count (rows : List Row) : ℕ := (benfordDigits rows).length

/-- Occurrences of digit `d` among the extracted first digits. -/
def digitCount (rows : List Row) (d : ℕ) : ℕ := (benfordDigits rows).count d

/-- Lines 67-75: `value_counts().sort_index()`, zero-filled so that every
digit 1-9 is present, and re-sorted by index — i.e. the pairs
`(d, count of d)` for `d = 1, …, 9` in ascending index order. -/
def histogram (rows : List Row) : List (ℕ × ℕ) :=
  (List.range' 1 9).map (fun d => (d, digitCount rows d))

/-- Lines 78-81: `observed_freq = digit_counts / total_count` when
`total_count > 0`, and an all-zero series otherwise. -/
def observed_freq (rows : List Row) (d : ℕ) : ℚ :=
  if 0 < total_count rows then (digitCount rows d : ℚ) / (total_count rows : ℚ)
  else 0

/-- Line 84: `expected_freq = [math.log10(1 + 1/d) for d in range(1, 10)]`,
idealized over the reals. -/
noncomputable def expected_freq (d : ℕ) : ℝ :=
  Real.logb 10 (1 + 1 / (d : ℝ))

/-! ## Run outcomes (lines 12-16, 20-58, 88-116)

Control flow of `analyze_gl`: only the `pd.read_excel` call is inside a
`try`; a failure there prints a diagnostic and calls `sys.exit(1)` before
any output is produced.  After a successful load the script accesses the
columns `Debit`, `Credit`, `Amount`, `EffectiveDate`, `EntryDate`,
`AccountType`, `Source` (in that order, lines 20-58) with no handler, so a
missing column raises an uncaught `KeyError`; all of these accesses happen
before the output directory, plot and report are written (lines 88-116). -/

/-- The expected columns, in the order the script first accesses them. -/
def requiredColumns : List String :=
  ["Debit", "Credit", "Amount", "EffectiveDate", "EntryDate",
   "AccountType", "Source"]

/-- Path of the plot image written on line 110. -/
def plotPath : String := "output/benford_plot.png"

/-- Path of the markdown report written on lines 114-161. -/
def reportPath : String := "output/report.md"

/-- Outcome of a run of the script. -/
inductive RunResult where
  | loadFailure (diagnostic : String)
  | uncaught (missingColumn : String)
  | completed (filesWritten : List String)
deriving DecidableEq

/-- Process exit status: `sys.exit(1)` on a load failure, the
interpreter's exit status 1 on an uncaught exception, 0 on completion. -/
def exitCode : RunResult → ℕ
  | .loadFailure _ => 1
  | .uncaught _ => 1
  | .completed _ => 0

/-- Output files created or modified by the run. -/
def filesWritten : RunResult → List String
  | .completed fs => fs
  | _ => []

/-- The script's control flow: the guarded load (lines 12-16), then the
unguarded column accesses (lines 20-58), then the plot and report writes
(lines 88-161). -/
def runScript (load : Except String RawTable) : RunResult :=
  match load with
  | .error e => .loadFailure e
  | .ok t =>
    match requiredColumns.find? (fun c => decide (c ∉ t.columns)) with
    | some c => .uncaught c
    | none => .completed [plotPath, reportPath]

/-- The spec's Benford scenario table: amounts `123.45, 0, -50.00, 999`. -/
def sampleRows : List Row :=
  [⟨0, 0, mkRat 12345 100, none, none, none, none⟩,
   ⟨0, 0, 0, none, none, none, none⟩,
   ⟨0, 0, mkRat (-50) 1, none, none, none, none⟩,
   ⟨0, 0, mkRat 999 1, none, none, none, none⟩]

/-- The spec's grouping scenario: an `AccountType` column containing
`["Asset", "Asset", "Liability"]`. -/
def assetRows : List Row :=
  [⟨0, 0, 0, none, none, some "Asset", none⟩,
   ⟨0, 0, 0, none, none, some "Asset", none⟩,
   ⟨0, 0, 0, none, none, some "Liability", none⟩]

/-! ## Theorems -/

/-- Filtering the entries holding one fixed count commutes with
`orderedInsert` by descending count: an inserted entry passes exactly the
entries with strictly greater counts, which a count-selective filter never
keeps together with it. -/
theorem filter_orderedInsert (q : String × ℕ → Bool)
    (hq : ∀ a b : String × ℕ, ¬ countGE a b → q a = true → q b = false)
    (a : String × ℕ) (l : List (String × ℕ)) :
    (List.orderedInsert countGE a l).filter q =
      if q a then a :: l.filter q else l.filter q := by
  induction l with
  | nil => simp [List.orderedInsert, List.filter_cons]
  | cons b t ih =>
    rw [List.orderedInsert]
    by_cases hab : countGE a b
    · rw [if_pos hab, List.filter_cons, List.filter_cons]
    · rw [if_neg hab, List.filter_cons]
      by_cases hqa : q a = true
      · have hqb : q b = false := hq a b hab hqa
        rw [ih, if_pos hqa, if_pos hqa, if_neg (by simp [hqb]), List.filter_cons,
          if_neg (by simp [hqb])]
      · rw [ih, if_neg hqa, if_neg hqa, List.filter_cons]

/-- Insertion sort by descending count is stable: it permutes whole
blocks of equal-count entries, never two entries within a block. -/
theorem filter_insertionSort (q : String × ℕ → Bool)
    (hq : ∀ a b : String × ℕ, ¬ countGE a b → q a = true → q b = false)
    (l : List (String × ℕ)) :
    (List.insertionSort countGE l).filter q = l.filter q := by
  induction l with
  | nil => rfl
  | cons a t ih =>
    rw [List.insertionSort, filter_orderedInsert q hq, ih, List.filter_cons]

/-- The first-seen key list has no duplicates. -/
theorem firstSeenKeys_nodup (l : List String) : (firstSeenKeys l).Nodup := by
  simp only [firstSeenKeys, List.nodup_reverse]
  exact List.nodup_dedup _

/-- A string is a first-seen key exactly when it occurs in the column. -/
theorem mem_firstSeenKeys (l : List String) (s : String) :
    s ∈ firstSeenKeys l ↔ s ∈ l := by
  simp [firstSeenKeys]

/-- The counts attached to the first-seen keys add up to the length of
the column: every occurrence is counted under exactly one key. -/
theorem countPairs_sum (l : List String) : sumCounts (countPairs l) = l.length := by
  show ((countPairs l).map (fun p => p.2)).sum = l.length
  rw [countPairs, List.map_map]
  have h1 : (firstSeenKeys l).toFinset.sum (fun k => l.count k) =
      ((firstSeenKeys l).map (fun k => l.count k)).sum :=
    List.sum_toFinset _ (firstSeenKeys_nodup l)
  have h2 : (firstSeenKeys l).toFinset = l.toFinset := by
    ext s
    simp [mem_firstSeenKeys]
  have h3 : ((firstSeenKeys l).map ((fun p : String × ℕ => p.2) ∘ fun k => (k, l.count k))).sum
      = ((firstSeenKeys l).map (fun k => l.count k)).sum := rfl
  rw [h3, ← h1, h2]
  exact List.sum_toFinset_count_eq_length l

/-- The sorted frequency table keeps the total count of the column. -/
theorem value_counts_sum (l : List String) : sumCounts (value_counts l) = l.length := by
  have hperm : ((value_counts l).map (fun p => p.2)).Perm
      ((countPairs l).map (fun p => p.2)) :=
    (List.perm_insertionSort countGE (countPairs l)).map _
  show ((value_counts l).map (fun p => p.2)).sum = l.length
  rw [hperm.sum_eq]
  exact countPairs_sum l

/-- Core properties of `value_counts` on a fully non-null column: counts
are occurrence counts, keys are the distinct values, the table is sorted
by descending count, and equal-count entries keep first-seen order. -/
theorem value_counts_spec (l : List String) :
    (∀ p ∈ value_counts l, p.2 = l.count p.1) ∧
    ((value_counts l).map Prod.fst).Nodup ∧
    (∀ s, s ∈ (value_counts l).map Prod.fst ↔ s ∈ l) ∧
    List.Sorted countGE (value_counts l) ∧
    (∀ c, (value_counts l).filter (fun p => decide (p.2 = c)) =
      (countPairs l).filter (fun p => decide (p.2 = c))) := by
  have hperm : (value_counts l).Perm (countPairs l) :=
    List.perm_insertionSort countGE (countPairs l)
  have hkeys : ((value_counts l).map Prod.fst).Perm (firstSeenKeys l) := by
    have h1 : ((value_counts l).map Prod.fst).Perm ((countPairs l).map Prod.fst) :=
      hperm.map _
    have h2 : (countPairs l).map Prod.fst = firstSeenKeys l := by
      rw [countPairs, List.map_map]
      exact List.map_id _
    rwa [h2] at h1
  refine ⟨?_, ?_, ?_, ?_, ?_⟩
  · intro p hp
    have hp2 : p ∈ countPairs l := hperm.mem_iff.mp hp
    obtain ⟨k, _, rfl⟩ := List.mem_map.mp hp2
    rfl
  · exact hkeys.nodup_iff.mpr (firstSeenKeys_nodup l)
  · intro s
    rw [hkeys.mem_iff]
    exact mem_firstSeenKeys l s
  · exact List.sorted_insertionSort countGE (countPairs l)
  · intro c
    refine filter_insertionSort _ ?_ _
    intro a b hab hqa
    simp only [decide_eq_true_eq] at hqa
    simp only [decide_eq_false_iff_not]
    intro hb
    exact hab (le_of_eq (hb.trans hqa.symm))

/-- C8: `account_type_counts` and `source_counts` map each distinct
string value of their column to its occurrence count, are sorted by
descending count, and break ties by first-seen order (the filter of any
fixed count equals the first-seen-ordered count list's filter). -/
theorem group_counts_sorted (rows : List Row) :
    (∀ p ∈ account_type_counts rows,
      p.2 = ((rows.map (fun r => r.accountType)).filterMap id).count p.1) ∧
    ((account_type_counts rows).map Prod.fst).Nodup ∧
    (∀ s, s ∈ (account_type_counts rows).map Prod.fst ↔
      some s ∈ rows.map (fun r => r.accountType)) ∧
    List.Sorted countGE (account_type_counts rows) ∧
    (∀ c, (account_type_counts rows).filter (fun p => decide (p.2 = c)) =
      (countPairs ((rows.map (fun r => r.accountType)).filterMap id)).filter
        (fun p => decide (p.2 = c))) ∧
    (∀ p ∈ source_counts rows,
      p.2 = ((rows.map (fun r => r.source)).filterMap id).count p.1) ∧
    ((source_counts rows).map Prod.fst).Nodup ∧
    (∀ s, s ∈ (source_counts rows).map Prod.fst ↔
      some s ∈ rows.map (fun r => r.source)) ∧
    List.Sorted countGE (source_counts rows) ∧
    (∀ c, (source_counts rows).filter (fun p => decide (p.2 = c)) =
      (countPairs ((rows.map (fun r => r.source)).filterMap id)).filter
        (fun p => decide (p.2 = c))) := by
  obtain ⟨a1, a2, a3, a4, a5⟩ := value_counts_spec ((rows.map (fun r => r.accountType)).filterMap id)
  obtain ⟨b1, b2, b3, b4, b5⟩ := value_counts_spec ((rows.map (fun r => r.source)).filterMap id)
  refine ⟨a1, a2, ?_, a4, a5, b1, b2, ?_, b4, b5⟩
  · intro s
    show s ∈ (value_counts ((rows.map (fun r => r.accountType)).filterMap id)).map Prod.fst ↔
      some s ∈ rows.map (fun r => r.accountType)
    rw [a3 s]
    simp
  · intro s
    show s ∈ (value_counts ((rows.map (fun r => r.source)).filterMap id)).map Prod.fst ↔
      some s ∈ rows.map (fun r => r.source)
    rw [b3 s]
    simp

/-- Witness for C8 at the spec's scenario: `["Asset","Asset","Liability"]`
yields `Asset: 2` then `Liability: 1`, in that order. -/
theorem group_counts_sorted_witness :
    ("Asset", 2) ∈ account_type_counts assetRows ∧
    ("Asset", 2).2 = ((assetRows.map (fun r => r.accountType)).filterMap id).count ("Asset", 2).1 ∧
    account_type_counts assetRows = [("Asset", 2), ("Liability", 1)] :=
  ⟨by decide, (group_counts_sorted assetRows).1 ("Asset", 2) (by decide), by decide⟩

/-- Dropping the `none` cells can only shorten a column, strictly so when
a `none` is present. -/
theorem filterMap_id_length_lt (col : List (Option String)) (hn : none ∈ col) :
    (col.filterMap id).length < col.length := by
  induction col with
  | nil => cases hn
  | cons x t ih =>
    cases x with
    | none =>
      have hle : (t.filterMap id).length ≤ t.length := List.length_filterMap_le id t
      simp only [List.filterMap_cons, id, List.length_cons]
      omega
    | some a =>
      have hn2 : none ∈ t := by simpa using hn
      have := ih hn2
      simp only [List.filterMap_cons, id, List.length_cons]
      omega

/-- C9: rows whose `AccountType`/`Source` cell is missing are dropped by
`value_counts`: every key comes from an actual (non-null) cell, the
counts sum to the number of non-null rows, and a column containing a null
has counts summing to strictly fewer than its row count. -/
theorem null_rows_excluded (col : List (Option String)) :
    sumCounts (value_countsOpt col) = (col.filterMap id).length ∧
    (none ∈ col → sumCounts (value_countsOpt col) < col.length) ∧
    (∀ p ∈ value_countsOpt col, some p.1 ∈ col) := by
  have hsum : sumCounts (value_countsOpt col) = (col.filterMap id).length :=
    value_counts_sum _
  refine ⟨hsum, ?_, ?_⟩
  · intro hn
    rw [hsum]
    exact filterMap_id_length_lt col hn
  · intro p hp
    have hp2 : p ∈ countPairs (col.filterMap id) :=
      (List.perm_insertionSort countGE _).mem_iff.mp hp
    obtain ⟨k, hk, rfl⟩ := List.mem_map.mp hp2
    have hkcol : k ∈ col.filterMap id := (mem_firstSeenKeys _ k).mp hk
    obtain ⟨o, ho, hok⟩ := List.mem_filterMap.mp hkcol
    simp only [id] at hok
    exact hok ▸ ho

/-- Witness for C9: a column with one `Asset` cell and one null cell has
counts summing to 1 < 2. -/
theorem null_rows_excluded_witness :
    (none ∈ ([some "Asset", none] : List (Option String))) ∧
    sumCounts (value_countsOpt [some "Asset", none]) <
      ([some "Asset", none] : List (Option String)).length :=
  ⟨by decide, (null_rows_excluded [some "Asset", none]).2.1 (by decide)⟩

/-- Counting each of the digits 1-9 in a list whose members all lie in
1-9 accounts for every member of the list. -/
theorem count_range_sum (l : List ℕ) (h : ∀ x ∈ l, 1 ≤ x ∧ x ≤ 9) :
    ((List.range' 1 9).map (fun d => l.count d)).sum = l.length := by
  induction l with
  | nil => simp
  | cons x t ih =>
    have hx := h x (List.mem_cons_self x t)
    have ih2 := ih (fun y hy => h y (List.mem_cons_of_mem x hy))
    have hr : List.range' 1 9 = [1, 2, 3, 4, 5, 6, 7, 8, 9] := rfl
    rw [hr] at ih2 ⊢
    obtain ⟨h1, h9⟩ := hx
    interval_cases x <;> simp_all [List.count_cons] <;> omega

/-- C1: the digit histogram has one entry per digit 1-9 (zero-filled when
a digit never occurs), and the nine counts sum to `total_count`, the
number of rows with non-zero `Amount` that survive the 1-9 first-digit
filter. -/
theorem benford_histogram_complete (rows : List Row) :
    (histogram rows).map Prod.fst = [1, 2, 3, 4, 5, 6, 7, 8, 9] ∧
    (∀ p ∈ histogram rows, p.2 = (benfordDigits rows).count p.1) ∧
    sumCounts (histogram rows) = total_count rows := by
  refine ⟨rfl, ?_, ?_⟩
  · intro p hp
    obtain ⟨d, _, rfl⟩ := List.mem_map.mp hp
    rfl
  · have hmem : ∀ x ∈ benfordDigits rows, 1 ≤ x ∧ x ≤ 9 := by
      intro x hx
      simpa using (List.mem_filter.mp hx).2
    have hsum := count_range_sum (benfordDigits rows) hmem
    simpa [sumCounts, histogram, total_count, digitCount, List.map_map,
      Function.comp] using hsum

/-- Witness for C1 at the spec's scenario table: the histogram entry for
digit 1 is present with count 1. -/
theorem benford_histogram_complete_witness :
    ((1, 1) : ℕ × ℕ) ∈ histogram sampleRows ∧
    ((1, 1) : ℕ × ℕ).2 = (benfordDigits sampleRows).count ((1, 1) : ℕ × ℕ).1 :=
  ⟨by decide, (benford_histogram_complete sampleRows).2.1 (1, 1) (by decide)⟩

/-- C2 counterexample: the claim says every row whose cleaned `Amount`
satisfies `0 < |a| < 1` is excluded from the histogram because the first
character of the decimal string of `|a|` is `'0'`.  The row with
`Amount = 0.00001` refutes it: Python renders `1e-05` in scientific
notation, the first character is `'1'`, and the row is counted under
digit 1. -/
theorem pure_fraction_counterexample :
    0 < |(mkRat 1 100000 : ℚ)| ∧ |(mkRat 1 100000 : ℚ)| < 1 ∧
    firstStrDigit |(mkRat 1 100000 : ℚ)| ≠ 0 ∧
    benfordDigits [⟨0, 0, mkRat 1 100000, none, none, none, none⟩] = [1] :=
  ⟨by decide, by decide, by decide, by decide⟩

/-- C2 (amended): a row whose cleaned `Amount` satisfies
`1/10000 ≤ |a| < 1` is excluded from the digit histogram — the first
character of the decimal string of `|a|` is `'0'`, which is outside 1-9
and discarded.  (Below `1/10000` Python switches to scientific notation
and the row is kept, see the counterexample.) -/
theorem pure_fraction_excluded (r : Row) (rows : List Row)
    (h1 : mkRat 1 10000 ≤ |r.amount|) (h2 : |r.amount| < 1) :
    firstStrDigit |r.amount| = 0 ∧
    benfordDigits (r :: rows) = benfordDigits rows := by
  have hd : firstStrDigit |r.amount| = 0 := by
    simp [firstStrDigit, h1, h2]
  have hpos : (0 : ℚ) < mkRat 1 10000 := by decide
  have habs : (0 : ℚ) < |r.amount| := lt_of_lt_of_le hpos h1
  have hnz : r.amount ≠ 0 := by
    intro h0
    rw [h0, abs_zero] at habs
    exact lt_irrefl 0 habs
  refine ⟨hd, ?_⟩
  simp [benfordDigits, hnz, hd]

/-- Witness for the amended C2: a row with `Amount = 1/2` gets first
character `'0'` and contributes nothing to the digit list. -/
theorem pure_fraction_excluded_witness :
    (mkRat 1 10000 ≤ |(mkRat 1 2 : ℚ)| ∧ |(mkRat 1 2 : ℚ)| < 1) ∧
    (firstStrDigit |(mkRat 1 2 : ℚ)| = 0 ∧
      benfordDigits [⟨0, 0, mkRat 1 2, none, none, none, none⟩] =
        benfordDigits []) :=
  ⟨⟨by decide, by decide⟩,
   pure_fraction_excluded ⟨0, 0, mkRat 1 2, none, none, none, none⟩ []
     (by decide) (by decide)⟩

/-- C4: the expected frequency of digit `d` is exactly `log10 (1 + 1/d)`,
independent of the input, and the nine expected frequencies sum to 1
exactly over the reals. -/
theorem expected_freq_benford :
    (∀ d, 1 ≤ d → d ≤ 9 → expected_freq d = Real.logb 10 (1 + 1 / (d : ℝ))) ∧
    ((List.range' 1 9).map expected_freq).sum = 1 := by
  refine ⟨fun d _ _ => rfl, ?_⟩
  have h10 : Real.log 10 ≠ 0 := ne_of_gt (Real.log_pos (by norm_num))
  show expected_freq 1 + (expected_freq 2 + (expected_freq 3 + (expected_freq 4 +
    (expected_freq 5 + (expected_freq 6 + (expected_freq 7 + (expected_freq 8 +
      (expected_freq 9 + 0)))))))) = 1
  simp only [expected_freq, Real.logb]
  push_cast
  norm_num
  field_simp
  rw [show (10 : ℝ) = 2 * (3/2) * (4/3) * (5/4) * (6/5) * (7/6) * (8/7) * (9/8) * (10/9)
      by norm_num]
  rw [Real.log_mul (by norm_num) (by norm_num), Real.log_mul (by norm_num) (by norm_num),
    Real.log_mul (by norm_num) (by norm_num), Real.log_mul (by norm_num) (by norm_num),
    Real.log_mul (by norm_num) (by norm_num), Real.log_mul (by norm_num) (by norm_num),
    Real.log_mul (by norm_num) (by norm_num), Real.log_mul (by norm_num) (by norm_num)]
  ring_nf

/-- Witness for C4 at digit 2. -/
theorem expected_freq_benford_witness :
    expected_freq 2 = Real.logb 10 (1 + 1 / ((2 : ℕ) : ℝ)) :=
  expected_freq_benford.1 2 (by norm_num) (by norm_num)

/-- C3: when no row survives the Benford eligibility filter the observed
frequency is 0 for every digit (no division by zero), and otherwise it is
the digit's count divided by `total_count`. -/
theorem observed_freq_division_guard (rows : List Row) (d : ℕ) :
    (total_count rows = 0 → observed_freq rows d = 0) ∧
    (0 < total_count rows →
      observed_freq rows d = (digitCount rows d : ℚ) / (total_count rows : ℚ)) := by
  constructor
  · intro h
    simp [observed_freq, h]
  · intro h
    simp [observed_freq, h]

/-- Witness for C3: an empty table has no eligible rows and observed
frequency 0 at digit 1; the spec's scenario table has eligible rows and
observed frequency `count / total` at digit 1. -/
theorem observed_freq_division_guard_witness :
    (total_count ([] : List Row) = 0 ∧ observed_freq ([] : List Row) 1 = 0) ∧
    (0 < total_count sampleRows ∧
      observed_freq sampleRows 1 = (digitCount sampleRows 1 : ℚ) / (total_count sampleRows : ℚ)) :=
  ⟨⟨by decide, (observed_freq_division_guard [] 1).1 (by decide)⟩,
   ⟨by decide, (observed_freq_division_guard sampleRows 1).2 (by decide)⟩⟩

/-- C5: cleaning keeps the column set and the row count, pairs each raw
row with its cleaned row positionally, turns every non-numeric `Debit`,
`Credit`, `Amount` cell (including missing ones) into `0`, keeps valid
numeric values, and leaves the other fields untouched. -/
theorem cleaner_preserves (t : RawTable) :
    (cleanTable t).columns = t.columns ∧
    (cleanTable t).rows.length = t.rows.length ∧
    List.Forall₂ (fun (r : RawRow) (c : Row) =>
        (r.debit = none → c.debit = 0) ∧ (∀ q, r.debit = some q → c.debit = q) ∧
        (r.credit = none → c.credit = 0) ∧ (∀ q, r.credit = some q → c.credit = q) ∧
        (r.amount = none → c.amount = 0) ∧ (∀ q, r.amount = some q → c.amount = q) ∧
        c.effectiveDate = r.effectiveDate ∧ c.entryDate = r.entryDate ∧
        c.accountType = r.accountType ∧ c.source = r.source)
      t.rows (cleanTable t).rows := by
  refine ⟨rfl, by simp [cleanTable], ?_⟩
  have hrows : (cleanTable t).rows = t.rows.map cleanRow := rfl
  rw [hrows, List.forall₂_map_right_iff, List.forall₂_same]
  intro r _
  exact ⟨fun h => by simp [cleanRow, h], fun q h => by simp [cleanRow, h],
    fun h => by simp [cleanRow, h], fun q h => by simp [cleanRow, h],
    fun h => by simp [cleanRow, h], fun q h => by simp [cleanRow, h],
    rfl, rfl, rfl, rfl⟩

/-- Witness for C5: a one-row table with a bad `Debit` cell and a valid
`Credit` cell keeps its column list and row count. -/
theorem cleaner_preserves_witness :
    (cleanTable ⟨["Debit"], [⟨none, some 2, none, none, none, none, none⟩]⟩).columns
        = ["Debit"] ∧
    (cleanTable ⟨["Debit"], [⟨none, some 2, none, none, none, none, none⟩]⟩).rows.length
        = 1 :=
  ⟨(cleaner_preserves ⟨["Debit"], [⟨none, some 2, none, none, none, none, none⟩]⟩).1,
   ((cleaner_preserves ⟨["Debit"], [⟨none, some 2, none, none, none, none, none⟩]⟩).2.1).trans rfl⟩

/-- C6: `total_debit` and `total_credit` are the sums of the `Debit` and
`Credit` columns, the totals (and `amount_sum`) are 0 on an empty table,
and permuting the rows leaves all three totals unchanged (exactly, over
ℚ). -/
theorem totals_are_sums (rows rows2 : List Row) (hperm : rows.Perm rows2) :
    total_debit rows = (rows.map (·.debit)).sum ∧
    total_credit rows = (rows.map (·.credit)).sum ∧
    total_debit ([] : List Row) = 0 ∧
    total_credit ([] : List Row) = 0 ∧
    amount_sum ([] : List Row) = 0 ∧
    total_debit rows = total_debit rows2 ∧
    total_credit rows = total_credit rows2 ∧
    amount_sum rows = amount_sum rows2 := by
  refine ⟨rfl, rfl, rfl, rfl, rfl, ?_, ?_, ?_⟩
  · show (rows.map (fun r => r.debit)).sum = (rows2.map (fun r => r.debit)).sum
    exact (hperm.map _).sum_eq
  · show (rows.map (fun r => r.credit)).sum = (rows2.map (fun r => r.credit)).sum
    exact (hperm.map _).sum_eq
  · show (rows.map (fun r => r.amount)).sum = (rows2.map (fun r => r.amount)).sum
    exact (hperm.map _).sum_eq

/-- Witness for C6: swapping the two rows of a concrete table preserves
`total_debit`. -/
theorem totals_are_sums_witness :
    ([⟨1, 2, 3, none, none, none, none⟩, ⟨4, 5, 6, none, none, none, none⟩] : List Row).Perm
        [⟨4, 5, 6, none, none, none, none⟩, ⟨1, 2, 3, none, none, none, none⟩] ∧
    total_debit [⟨1, 2, 3, none, none, none, none⟩, ⟨4, 5, 6, none, none, none, none⟩] =
      total_debit [⟨4, 5, 6, none, none, none, none⟩, ⟨1, 2, 3, none, none, none, none⟩] :=
  ⟨List.Perm.swap _ _ _,
   (totals_are_sums _ _ (List.Perm.swap _ _ _)).2.2.2.2.2.1⟩

/-- C7: when the file cannot be read, the run stops on the guarded load
path: it reports the diagnostic, exits with a non-zero status, and writes
no output file. -/
theorem load_failure_aborts (msg : String) :
    runScript (.error msg) = .loadFailure msg ∧
    exitCode (runScript (.error msg)) ≠ 0 ∧
    filesWritten (runScript (.error msg)) = [] :=
  ⟨rfl, by simp [runScript, exitCode], rfl⟩

/-- Witness for C7 at a concrete diagnostic message. -/
theorem load_failure_aborts_witness :
    runScript (.error "bad file") = .loadFailure "bad file" ∧
    filesWritten (runScript (.error "bad file")) = [] :=
  ⟨(load_failure_aborts "bad file").1, (load_failure_aborts "bad file").2.2⟩

/-- C10: a table that loads but lacks one of the expected columns makes
the run fail through an uncaught exception at the first missing column
access — not through the diagnostic-plus-exit load-failure path — and no
output file is written. -/
theorem missing_column_uncaught (t : RawTable)
    (h : ∃ c ∈ requiredColumns, c ∉ t.columns) :
    (∃ c ∈ requiredColumns, runScript (.ok t) = .uncaught c ∧ c ∉ t.columns) ∧
    (∀ msg, runScript (.ok t) ≠ .loadFailure msg) ∧
    filesWritten (runScript (.ok t)) = [] := by
  obtain ⟨c0, hc0, hnc0⟩ := h
  cases hf : requiredColumns.find? (fun c => decide (c ∉ t.columns)) with
  | none =>
    exact absurd (by simpa using List.find?_eq_none.mp hf c0 hc0) hnc0
  | some c =>
    have hrun : runScript (.ok t) = .uncaught c := by
      simp only [runScript]
      rw [hf]
    refine ⟨⟨c, List.mem_of_find?_eq_some hf, hrun, ?_⟩, ?_, ?_⟩
    · simpa using List.find?_some hf
    · intro msg
      rw [hrun]
      simp
    · rw [hrun]
      rfl

/-- Witness for C10: a loaded table having only a `Debit` column fails
without writing output files. -/
theorem missing_column_uncaught_witness :
    (∃ c ∈ requiredColumns, c ∉ (⟨["Debit"], []⟩ : RawTable).columns) ∧
    filesWritten (runScript (.ok ⟨["Debit"], []⟩)) = [] :=
  ⟨by decide, (missing_column_uncaught ⟨["Debit"], []⟩ (by decide)).2.2⟩

end AnalyzeGL
